import Mathlib

/-!
Verification of the whepts session-orchestration core (WHEP client).

The definitions below are a shallow embedding of the TypeScript sources:
* `src/monitors/scheduler.ts`   — `MonitorScheduler` (tick throttling, task running)
* `src/monitors/flow-monitor.ts`— `FlowMonitor.checkFlowState` / `handleNoProgress`
* `src/utils/sdp.ts`            — `SdpUtils` (payload-type allocator, stereo Opus
                                  injection, trickle-ICE fragment generation)
* the `WebRTCWhep` orchestrator (`handleError`, `handleCandidate`,
  `handleOfferResponse`, `close`, restart timer)

SDP text is modelled at the granularity the source manipulates it: the source
splits sections into lines on CRLF and joins them back, so line lists
(`List (List Char)`) are the working representation.  Timestamps are `Int`
(JS numbers holding millisecond times and differences).
-/

namespace Whep

/-! ## Monitor scheduler (src/monitors/scheduler.ts) -/

/-- Task status, from `enum TaskStatus` (scheduled / running / paused). -/
inductive TaskStatus where
  | scheduled
  | running
  | paused
deriving DecidableEq, Repr

/-- One scheduled health-check task, from `interface Task`.  The callback is not
part of the pure state; its outcome is passed to `runTask` explicitly. -/
structure Task where
  id : String
  interval : Nat
  priority : Nat
  status : TaskStatus
  lastRun : Int
  nextRun : Int
deriving DecidableEq, Repr

/-- The scheduler state that the claims are about: the task map (association
list keyed by task id), the shared-timer flag `isRunning`, and the adaptive
throttle level. -/
structure SchedulerState where
  tasks : List (String × Task)
  isRunning : Bool
  throttleLevel : Nat
deriving Repr

/-- `MonitorScheduler.updateThrottleLevel`.  The source compares the measured
frame duration against `performanceThreshold`, raising the level (capped at 2)
on overload and lowering it (floored at 0) when the duration is below half the
threshold.  `frameDuration < threshold * 0.5` is rendered as
`2 * frameDuration < threshold`, which coincides with the source on the integer
millisecond values it receives; `Nat` subtraction renders
`Math.max(level - 1, 0)`. -/
def updateThrottleLevel (level : Nat) (frameDuration threshold : Int) : Nat :=
  if frameDuration > threshold * 2 then
    min (level + 1) 2
  else if frameDuration > threshold then
    max level 1
  else if 2 * frameDuration < threshold then
    level - 1
  else
    level

/-- Eligibility test from `MonitorScheduler.getTasksToRun`: a task is selected
when it is `scheduled` and `now - task.lastRun >= task.interval * 2 ^ throttleLevel`. -/
def eligible (throttleLevel : Nat) (now : Int) (t : Task) : Bool :=
  t.status == TaskStatus.scheduled
    && decide ((t.interval : Int) * 2 ^ throttleLevel ≤ now - t.lastRun)

/-- `MonitorScheduler.getTasksToRun`: filter the eligible tasks and sort them by
descending priority (`tasksToRun.sort((a, b) => b.priority - a.priority)`). -/
def getTasksToRun (s : SchedulerState) (now : Int) : List Task :=
  (((s.tasks.map Prod.snd).filter (eligible s.throttleLevel now)).mergeSort
    (fun a b => b.priority ≤ a.priority))

/-- `MonitorScheduler.runTask` on one task.  `ok` is the callback outcome:
on success the run timestamps advance and the status returns to `scheduled`;
on a thrown/rejected callback the exception is caught and only the status is
restored to `scheduled` (the timestamps are left untouched). -/
def runTask (t : Task) (now : Int) (ok : Bool) : Task :=
  if ok then
    { t with lastRun := now, nextRun := now + (t.interval : Int),
             status := TaskStatus.scheduled }
  else
    { t with status := TaskStatus.scheduled }

/-- Effect of `runTask` on the scheduler state: only the entry with the given
id is replaced; the timer flag and throttle level are untouched. -/
def applyRunTask (s : SchedulerState) (id : String) (now : Int) (ok : Bool) :
    SchedulerState :=
  { s with tasks := s.tasks.map (fun p => if p.1 = id then (p.1, runTask p.2 now ok) else p) }

/-! ## Flow monitor (src/monitors/flow-monitor.ts) -/

/-- The mutable state of `FlowMonitor` that `checkFlowState` reads and writes. -/
structure FlowState where
  lastBytesReceived : Nat
  isFirstCheck : Bool
  consecutiveNoProgress : Nat
deriving DecidableEq, Repr

/-- `FlowMonitor.reset()`. -/
def flowReset : FlowState :=
  { lastBytesReceived := 0, isFirstCheck := true, consecutiveNoProgress := 0 }

/-- `FlowMonitor.checkFlowState` for one sampled byte count, given the
`maxNoProgress` threshold.  The first check only records a baseline.  Growth
(`currentBytes > lastBytesReceived`, from `hasDataProgress`) resets the
counter; otherwise `handleNoProgress` increments it and, on reaching the
threshold, raises the stall signal (returned `Bool`) and resets the counter. -/
def checkFlowState (maxNoProgress : Nat) (s : FlowState) (currentBytes : Nat) :
    FlowState × Bool :=
  if s.isFirstCheck then
    ({ s with lastBytesReceived := currentBytes, isFirstCheck := false }, false)
  else if currentBytes > s.lastBytesReceived then
    ({ lastBytesReceived := currentBytes, isFirstCheck := false,
       consecutiveNoProgress := 0 }, false)
  else
    let c := s.consecutiveNoProgress + 1
    if maxNoProgress ≤ c then
      ({ lastBytesReceived := currentBytes, isFirstCheck := false,
         consecutiveNoProgress := 0 }, true)
    else
      ({ lastBytesReceived := currentBytes, isFirstCheck := false,
         consecutiveNoProgress := c }, false)

/-- Run `checkFlowState` over a sequence of sampled byte counts, returning the
final monitor state and the list of stall flags, one per sample. -/
def runFlowChecks (maxNoProgress : Nat) (s : FlowState) :
    List Nat → FlowState × List Bool
  | [] => (s, [])
  | b :: bs =>
      let (s', flag) := checkFlowState maxNoProgress s b
      let (s'', flags) := runFlowChecks maxNoProgress s' bs
      (s'', flag :: flags)

/-! ## Session state machine (WebRTCWhep: handleError, handleCandidate,
handleOfferResponse, close, restart timer) -/

/-- Lifecycle states, from `type State` in `types.ts`
(`getting_codecs` is the spec's `discovering-codecs`). -/
inductive WState where
  | gettingCodecs
  | running
  | restarting
  | closed
  | failed
deriving DecidableEq, Repr

/-- Error kinds, from `ErrorTypes` in `errors.ts`. -/
inductive ErrType where
  | signal
  | stateErr
  | request
  | notFound
  | other
deriving DecidableEq, Repr

/-- An error value: either a typed `WebRTCError` or a plain `Error`
(`err instanceof WebRTCError` distinguishes the two in the source). -/
inductive Err where
  | webrtc (t : ErrType)
  | plain
deriving DecidableEq, Repr

/-- The `[ErrorTypes.SIGNAL_ERROR, ErrorTypes.NOT_FOUND_ERROR,
ErrorTypes.REQUEST_ERROR].includes(err.type)` test of `handleError`
(together with the `instanceof WebRTCError` guard). -/
def isPermanentType : Err → Bool
  | Err.webrtc t =>
      t == ErrType.signal || t == ErrType.notFound || t == ErrType.request
  | Err.plain => false

/-- `retryPause` field of `WebRTCWhep` (milliseconds). -/
def retryPause : Nat := 2000

/-- The orchestrator state the claims are about.  Candidates are identifiers
(`Nat`); `offerData` records whether `connectionManager.getOfferData()` is set;
`awaitingAnswer` is true between receipt of the offer response and resolution
of `setAnswer`; `restartTimer` holds the delay of a pending restart timeout. -/
structure WhepState where
  st : WState
  sessionUrl : Option Nat
  queuedCandidates : List Nat
  offerData : Bool
  awaitingAnswer : Bool
  restartTimer : Option Nat
deriving DecidableEq, Repr

/-- The state at construction time: `stateStore = atom<State>('getting_codecs')`
with every session field empty. -/
def initWhep : WhepState :=
  { st := WState.gettingCodecs, sessionUrl := none, queuedCandidates := [],
    offerData := false, awaitingAnswer := false, restartTimer := none }

/-- `WebRTCWhep.cleanupSession`: close the connection manager (dropping the
stored offer data), clear the candidate queue, fire the best-effort DELETE when
a session URL exists, and clear the URL.  The returned flag records whether the
DELETE request was issued. -/
def cleanupSession (s : WhepState) : WhepState × Bool :=
  ({ s with offerData := false, queuedCandidates := [], sessionUrl := none },
   s.sessionUrl.isSome)

/-- `WebRTCWhep.handleError`: during codec discovery every error is permanent;
a `WebRTCError` of signal/not-found/request kind is permanent from any state;
otherwise, while `running`, the session is cleaned up, the machine enters
`restarting` and a timer of `retryPause` milliseconds is armed whose callback
sets the state back to `running` and calls `start()`.  In any other state no
transition occurs (the error is only re-emitted to observers). -/
def handleError (s : WhepState) (e : Err) : WhepState :=
  if s.st = WState.gettingCodecs then
    { s with st := WState.failed }
  else if isPermanentType e then
    { s with st := WState.failed }
  else if s.st = WState.running then
    { (cleanupSession s).1 with
        st := WState.restarting
        restartTimer := some retryPause }
  else
    s

/-- The observable events of one orchestrator instance.  Each constructor is
one synchronous handler segment of the source; `answerOk`/`answerSkip` are the
two continuations of `handleOfferResponse` after the `setAnswer` suspension
point resolves (while still `running`, resp. after the state has changed). -/
inductive Ev where
  | codecsDone
  | setupDone
  | offerResp (url : Nat)
  | answerOk
  | answerSkip
  | cand (c : Nat)
  | err (e : Err)
  | timerFire
  | closeEv
deriving DecidableEq, Repr

/-- One step of the orchestrator.  `none` means the event is not enabled in the
given state (its guard in the source fails).  The second component lists the
candidate batches handed to `httpClient.sendLocalCandidates` during the step.

* `codecsDone`: `CodecDetector.detect` only emits while still `getting_codecs`;
  the handler sets `running` and calls `start()`.
* `setupDone`: `setupPeerConnection` resolves (it throws unless `running`);
  `offerData` is now set.
* `offerResp url`: `sendOffer` of the current pipeline resolves with a
  `Location`; `handleOfferResponse` stores the URL and awaits `setAnswer`.
* `answerOk`: `setAnswer` resolves and the state is still `running`; if the
  queue is non-empty and offer data and URL exist, the whole queue is sent as
  one batch and cleared.
* `answerSkip`: `setAnswer` settles after the state left `running`; the early
  return skips the flush.
* `cand c`: `ConnectionManager.onLocalCandidate` emits only while `running`;
  `handleCandidate` sends the candidate individually when the URL is known
  (dropping it when offer data is missing) and queues it otherwise.
* `err e`: `handleError`.
* `timerFire`: a pending restart timeout fires, setting `running` and calling
  `start()`.
* `closeEv`: `close()` sets `closed`, closes the connection manager (dropping
  offer data) and cancels a pending restart timeout; the queue and the stored
  session URL are left as they are. -/
def stepEv (s : WhepState) : Ev → Option (WhepState × List (List Nat))
  | Ev.codecsDone =>
      if s.st = WState.gettingCodecs then
        some ({ s with st := WState.running }, [])
      else none
  | Ev.setupDone =>
      if s.st = WState.running then
        some ({ s with offerData := true }, [])
      else none
  | Ev.offerResp url =>
      if s.st = WState.running ∧ s.offerData then
        some ({ s with sessionUrl := some url, awaitingAnswer := true }, [])
      else none
  | Ev.answerOk =>
      if s.awaitingAnswer ∧ s.st = WState.running then
        if s.queuedCandidates ≠ [] ∧ s.offerData ∧ s.sessionUrl.isSome then
          some ({ s with awaitingAnswer := false, queuedCandidates := [] },
                [s.queuedCandidates])
        else
          some ({ s with awaitingAnswer := false }, [])
      else none
  | Ev.answerSkip =>
      if s.awaitingAnswer ∧ s.st ≠ WState.running then
        some ({ s with awaitingAnswer := false }, [])
      else none
  | Ev.cand c =>
      if s.st = WState.running then
        match s.sessionUrl with
        | some _ =>
            if s.offerData then some (s, [[c]]) else some (s, [])
        | none =>
            some ({ s with queuedCandidates := s.queuedCandidates ++ [c] }, [])
      else none
  | Ev.err e => some (handleError s e, [])
  | Ev.timerFire =>
      if s.restartTimer.isSome then
        some ({ s with restartTimer := none, st := WState.running }, [])
      else none
  | Ev.closeEv =>
      some ({ s with
                st := WState.closed
                offerData := false
                restartTimer := none }, [])

/-- Run a sequence of events from a state, ignoring disabled events' outputs:
`none` aborts the trace. -/
def runTrace (s : WhepState) : List Ev → Option WhepState
  | [] => some s
  | e :: es =>
      match stepEv s e with
      | some (s', _) => runTrace s' es
      | none => none

/-- Reachability from the construction-time state by enabled events. -/
inductive Reach : WhepState → Prop where
  | init : Reach initWhep
  | step {s s' : WhepState} {e : Ev} {out : List (List Nat)} :
      Reach s → stepEv s e = some (s', out) → Reach s'

/-! ## Payload-type allocator (SdpUtils.reservePayloadType) -/

/-- The scan loop of `reservePayloadType`: try `i`, `i+1`, … for `fuel`
attempts, returning the first value that is outside 64–95 and not yet in the
pool (the pool stores payload types as strings, as in the source). -/
def reserveLoop (payloadTypes : List String) : Nat → Nat → Option String
  | _, 0 => none
  | i, fuel + 1 =>
      if (decide (i ≤ 63) || decide (96 ≤ i)) && !(payloadTypes.contains (toString i)) then
        some (toString i)
      else
        reserveLoop payloadTypes (i + 1) fuel

/-- `SdpUtils.reservePayloadType`: scan `i` from 30 to 127 (98 candidates),
skip 64–95 and values already present, push the winner onto the pool and
return it; throw (`none`) when the whole range is exhausted. -/
def reservePayloadType (payloadTypes : List String) :
    Option (String × List String) :=
  match reserveLoop payloadTypes 30 98 with
  | some pl => some (pl, payloadTypes ++ [pl])
  | none => none

/-- A sequence of `n` allocations against one offer's pool, threading the pool
through (the source mutates the shared `payloadTypes` array).  Returns the
allocated values in order and the final pool, or `none` as soon as one
allocation throws. -/
def allocSeq : Nat → List String → Option (List String × List String)
  | 0, pool => some ([], pool)
  | n + 1, pool =>
      match reservePayloadType pool with
      | none => none
      | some (pl, pool') =>
          match allocSeq n pool' with
          | none => none
          | some (res, pool'') => some (pl :: res, pool'')

/-! ## Stereo Opus injection (SdpUtils.enableStereoOpus)

The source splits the media section on CRLF, edits the line array and joins it
back; the embedding works directly on the line list (`List (List Char)`),
with JS `includes` rendered as the infix relation and `startsWith` as
`List.isPrefixOf`. -/

/-- JS `String.prototype.includes`: `sub` occurs contiguously in `l`. -/
def containsSub (sub l : List Char) : Bool :=
  decide (sub <:+: l)

/-- The search predicate of the first loop of `enableStereoOpus`:
`lines[i].startsWith('a=rtpmap:') && lines[i].toLowerCase().includes('opus/')`. -/
def opusRtpmapLine (l : List Char) : Bool :=
  "a=rtpmap:".data.isPrefixOf l && containsSub "opus/".data (l.map Char.toLower)

/-- `lines[i].slice('a=rtpmap:'.length).split(' ')[0]`: the payload format of
the matched rtpmap line. -/
def extractPayloadFormat (l : List Char) : List Char :=
  (l.drop ("a=rtpmap:".length)).takeWhile (fun c => c ≠ ' ')

/-- The body of the second loop of `enableStereoOpus`, applied to one line:
when the line starts with the `a=fmtp:<pf> ` header, `;stereo=1` is appended
unless the line already mentions `stereo`, and then `;sprop-stereo=1` is
appended unless the (possibly already extended) line mentions `sprop-stereo`. -/
def stereoStep (pf l : List Char) : List Char :=
  if ("a=fmtp:".data ++ pf ++ [' ']).isPrefixOf l then
    let l1 := if containsSub "stereo".data l then l else l ++ ";stereo=1".data
    if containsSub "sprop-stereo".data l1 then l1 else l1 ++ ";sprop-stereo=1".data
  else
    l

/-- `SdpUtils.enableStereoOpus` on the line list of one media section: locate
the first Opus rtpmap line and take its payload format; when none is found the
payload format stays the empty string and the section is returned unchanged;
otherwise every matching fmtp line receives the stereo markers. -/
def enableStereoOpus (lines : List (List Char)) : List (List Char) :=
  let pf :=
    match lines.find? opusRtpmapLine with
    | some l => extractPayloadFormat l
    | none => []
  if pf = [] then lines else lines.map (stereoStep pf)

/-! ## Trickle-ICE fragment generation (SdpUtils.generateSdpFragment) -/

/-- The parsed offer summary from `SdpUtils.parseOffer`: shared ICE
credentials plus the media-section headers in appearance order. -/
structure ParsedOffer where
  iceUfrag : List Char
  icePwd : List Char
  medias : List (List Char)
deriving DecidableEq, Repr

/-- A local ICE candidate as `generateSdpFragment` consumes it:
its `candidate` string and its `sdpMLineIndex` (`number | null`). -/
structure Candidate where
  candidate : List Char
  sdpMLineIndex : Option Nat
deriving DecidableEq, Repr

/-- Membership of a candidate in `candidatesByMedia[mid]`.  The grouping loop
reads `const mid = candidate.sdpMLineIndex` and guards the insertion with the
truthiness test `if (mid)`, which rejects both `null` and the index `0`. -/
def inMediaGroup (mid : Nat) (c : Candidate) : Bool :=
  c.sdpMLineIndex == some mid && mid != 0

/-- `SdpUtils.generateSdpFragment`, producing the fragment as a list of lines
(the source appends `\r\n` after each line of the same sequence): the shared
ice-ufrag/ice-pwd lines, then, walking the declared media sections with the
counter `mid` starting at 0, one `m=` block per media index whose group is
non-empty, holding the `m=` header, the `a=mid:` line and one `a=` line per
grouped candidate. -/
def generateSdpFragment (od : ParsedOffer) (candidates : List Candidate) :
    List (List Char) :=
  ("a=ice-ufrag:".data ++ od.iceUfrag) ::
  ("a=ice-pwd:".data ++ od.icePwd) ::
  (od.medias.enum.flatMap (fun p =>
    let mid := p.1
    let media := p.2
    let group := candidates.filter (inMediaGroup mid)
    if group = [] then []
    else
      ("m=".data ++ media) ::
      ("a=mid:".data ++ (Nat.repr mid).data) ::
      group.map (fun c => "a=".data ++ c.candidate)))

/-- Number of `m=` blocks in a generated fragment. -/
def countMediaLines (lines : List (List Char)) : Nat :=
  (lines.filter (fun l => "m=".data.isPrefixOf l)).length

/-! ## Concrete test fixtures -/

/-- A parsed offer with three declared media sections. -/
def fragOffer : ParsedOffer :=
  { iceUfrag := "abcd".data, icePwd := "efgh".data,
    medias := ["video 9 RTP 96".data, "audio 9 RTP 111".data, "app 9 SCTP".data] }

/-- Candidates whose media-section indices are exactly 0 and 2. -/
def fragCands : List Candidate :=
  [{ candidate := "cand0".data, sdpMLineIndex := some 0 },
   { candidate := "cand2".data, sdpMLineIndex := some 2 }]

/-- An audio media section (as split on CRLF) advertising Opus with an fmtp
line that lacks the stereo parameters. -/
def testAudioLines : List (List Char) :=
  ["audio 9 RTP 111".data,
   "a=rtpmap:111 opus/48000/2".data,
   "a=fmtp:111 minptime=10".data]

/-- The state reached by the trace
`codecsDone, setupDone, cand 7, offerResp 1`: the offer response has arrived
(so the session URL is set) while `setAnswer` is still pending and candidate 7
is still queued. -/
def midAnswerState : WhepState :=
  { st := WState.running, sessionUrl := some 1, queuedCandidates := [7],
    offerData := true, awaitingAnswer := true, restartTimer := none }

/-- The state after `setAnswer` resolves at `midAnswerState`: the queue has
been flushed as one batch. -/
def flushedState : WhepState :=
  { st := WState.running, sessionUrl := some 1, queuedCandidates := [],
    offerData := true, awaitingAnswer := false, restartTimer := none }

/-- The session-queue invariant that actually holds at every reachable state
(strengthened to be inductive): while `running` with no `setAnswer` in flight,
a known session URL forces an empty candidate queue; a known URL while
`running` implies stored offer data; and a pending restart timer implies a
cleaned-up session outside `running`/`getting_codecs`; in the untouched
construction state everything is empty. -/
def SessionInv (s : WhepState) : Prop :=
  (s.st = WState.running → s.awaitingAnswer = false → s.sessionUrl.isSome →
    s.queuedCandidates = [])
  ∧ (s.st = WState.running → s.sessionUrl.isSome → s.offerData = true)
  ∧ (s.restartTimer.isSome →
      s.queuedCandidates = [] ∧ s.sessionUrl = none
        ∧ s.st ≠ WState.running ∧ s.st ≠ WState.gettingCodecs)
  ∧ (s.st = WState.gettingCodecs →
      s.sessionUrl = none ∧ s.queuedCandidates = [] ∧ s.offerData = false
        ∧ s.awaitingAnswer = false)

/-! # Theorems -/

/-! ## Scheduler and monitors -/

/-- Helper: the throttle level never leaves 0–2 and moves by at most one step
per update. -/
theorem updateThrottleLevel_step (level : Nat) (fd th : Int) (h : level ≤ 2) :
    updateThrottleLevel level fd th ≤ 2
      ∧ updateThrottleLevel level fd th ≤ level + 1
      ∧ level ≤ updateThrottleLevel level fd th + 1 := by
  unfold updateThrottleLevel
  split
  · omega
  · split
    · omega
    · split
      · omega
      · omega

/-- C10: the scheduler's throttle level stays in 0–2: each tick raises it by at
most one step (clamped at 2) or lowers it by at most one step (clamped at 0),
so a task's effective interval (nominal × 2 ^ level) never exceeds four times
its nominal interval. -/
theorem C10_throttle_level_bounded (level : Nat) (fd th : Int) (h : level ≤ 2) :
    updateThrottleLevel level fd th ≤ 2
      ∧ updateThrottleLevel level fd th ≤ level + 1
      ∧ level ≤ updateThrottleLevel level fd th + 1
      ∧ ∀ interval : Nat,
          interval * 2 ^ updateThrottleLevel level fd th ≤ 4 * interval := by
  obtain ⟨h2, hup, hdown⟩ := updateThrottleLevel_step level fd th h
  refine ⟨h2, hup, hdown, fun interval => ?_⟩
  have hpow : 2 ^ updateThrottleLevel level fd th ≤ 4 := by
    calc 2 ^ updateThrottleLevel level fd th ≤ 2 ^ 2 :=
          Nat.pow_le_pow_right (by norm_num) h2
      _ = 4 := by norm_num
  calc interval * 2 ^ updateThrottleLevel level fd th
      ≤ interval * 4 := Nat.mul_le_mul_left interval hpow
    _ = 4 * interval := Nat.mul_comm interval 4

/-- C10 witness. -/
theorem C10_throttle_level_bounded_witness :
    (0 : Nat) ≤ 2
      ∧ (updateThrottleLevel 0 100 16 ≤ 2
          ∧ updateThrottleLevel 0 100 16 ≤ 0 + 1
          ∧ 0 ≤ updateThrottleLevel 0 100 16 + 1
          ∧ ∀ interval : Nat,
              interval * 2 ^ updateThrottleLevel 0 100 16 ≤ 4 * interval) :=
  ⟨by decide, C10_throttle_level_bounded 0 100 16 (by decide)⟩

/-- C8: with the transport connected and threshold 3, the byte-count sequence
100, 100, 100, 100, 200 raises exactly one stall signal, at the fourth sample
(the third repeated 100 after the baseline), and the no-progress counter is
back at zero before the final growth sample is processed. -/
theorem C8_flow_monitor_stall_sequence :
    (runFlowChecks 3 flowReset [100, 100, 100, 100, 200]).2
        = [false, false, false, true, false]
      ∧ (runFlowChecks 3 flowReset [100, 100, 100, 100, 200]).2.count true = 1
      ∧ (runFlowChecks 3 flowReset [100, 100, 100, 100]).1.consecutiveNoProgress
          = 0 :=
  ⟨rfl, rfl, rfl⟩

/-- C9: when a task's callback throws, the exception is caught: the task stays
in the map, its status returns to `scheduled` with `lastRun` untouched, the
shared timer flag, throttle level and all other tasks are unaffected, and the
task is again selected by `getTasksToRun` at any later instant at which the
throttle level has not been raised. -/
theorem C9_failed_task_still_scheduled (s : SchedulerState) (id : String)
    (t : Task) (now now' : Int) (level' : Nat)
    (hmem : (id, t) ∈ s.tasks)
    (helig : eligible s.throttleLevel now t = true)
    (hnow : now ≤ now')
    (hlev : level' ≤ s.throttleLevel) :
    (id, runTask t now false) ∈ (applyRunTask s id now false).tasks
      ∧ (runTask t now false).status = TaskStatus.scheduled
      ∧ (runTask t now false).lastRun = t.lastRun
      ∧ (applyRunTask s id now false).isRunning = s.isRunning
      ∧ (applyRunTask s id now false).throttleLevel = s.throttleLevel
      ∧ (∀ id' t', id' ≠ id →
          ((id', t') ∈ s.tasks ↔ (id', t') ∈ (applyRunTask s id now false).tasks))
      ∧ runTask t now false ∈
          getTasksToRun
            { applyRunTask s id now false with throttleLevel := level' } now' := by
  have hrt : runTask t now false = { t with status := TaskStatus.scheduled } := by
    simp [runTask]
  have hmem' : (id, runTask t now false) ∈ (applyRunTask s id now false).tasks := by
    simp only [applyRunTask]
    have := List.mem_map_of_mem
      (fun p : String × Task =>
        if p.1 = id then (p.1, runTask p.2 now false) else p) hmem
    simpa using this
  have hstat : (runTask t now false).status = TaskStatus.scheduled := by
    rw [hrt]
  have hlast : (runTask t now false).lastRun = t.lastRun := by
    rw [hrt]
  refine ⟨hmem', hstat, hlast, rfl, rfl, ?_, ?_⟩
  · intro id' t' hne
    constructor
    · intro hm
      simp only [applyRunTask]
      have := List.mem_map_of_mem
        (fun p : String × Task =>
          if p.1 = id then (p.1, runTask p.2 now false) else p) hm
      simpa [hne] using this
    · intro hm
      simp only [applyRunTask, List.mem_map] at hm
      obtain ⟨p, hp, hfp⟩ := hm
      by_cases hpid : p.1 = id
      · rw [if_pos hpid] at hfp
        exact absurd (hfp ▸ rfl : (id', t').1 = p.1) (by simp [hpid, hne])
      · rw [if_neg hpid] at hfp
        exact hfp ▸ hp
  · have helig' :
        eligible level' now' (runTask t now false) = true := by
      simp only [eligible, Bool.and_eq_true, beq_iff_eq, decide_eq_true_eq] at helig ⊢
      obtain ⟨_, hbound⟩ := helig
      refine ⟨by rw [hstat], ?_⟩
      rw [hlast]
      calc (t.interval : Int) * 2 ^ level'
          ≤ (t.interval : Int) * 2 ^ s.throttleLevel := by
            apply mul_le_mul_of_nonneg_left _ (by positivity)
            exact pow_le_pow_right₀ (by norm_num) hlev
        _ ≤ now - t.lastRun := hbound
        _ ≤ now' - t.lastRun := by omega
    simp only [getTasksToRun, List.mem_mergeSort, List.mem_filter]
    refine ⟨?_, helig'⟩
    exact List.mem_map_of_mem Prod.snd hmem'

/-- C9 witness: one registered flow-monitor task whose callback throws. -/
theorem C9_failed_task_still_scheduled_witness :
    (("flow-monitor-5000",
        ({ id := "flow-monitor-5000", interval := 5000, priority := 2,
           status := TaskStatus.scheduled, lastRun := 0, nextRun := 5000 } : Task)) ∈
      (({ tasks := [("flow-monitor-5000",
            { id := "flow-monitor-5000", interval := 5000, priority := 2,
              status := TaskStatus.scheduled, lastRun := 0, nextRun := 5000 })],
          isRunning := true, throttleLevel := 1 } : SchedulerState)).tasks
      ∧ eligible 1 10000
          { id := "flow-monitor-5000", interval := 5000, priority := 2,
            status := TaskStatus.scheduled, lastRun := 0, nextRun := 5000 } = true
      ∧ (10000 : Int) ≤ 11000 ∧ (1 : Nat) ≤ 1)
    ∧ runTask
        { id := "flow-monitor-5000", interval := 5000, priority := 2,
          status := TaskStatus.scheduled, lastRun := 0, nextRun := 5000 } 10000 false ∈
        getTasksToRun
          { applyRunTask
              { tasks := [("flow-monitor-5000",
                  { id := "flow-monitor-5000", interval := 5000, priority := 2,
                    status := TaskStatus.scheduled, lastRun := 0, nextRun := 5000 })],
                isRunning := true, throttleLevel := 1 }
              "flow-monitor-5000" 10000 false with throttleLevel := 1 } 11000 :=
  ⟨⟨by decide, by decide, by decide, by decide⟩,
    (C9_failed_task_still_scheduled _ "flow-monitor-5000" _ 10000 11000 1
      (by decide) (by decide) (by decide) (by decide)).2.2.2.2.2.2⟩

/-! ## Error classification and terminal states -/

/-- C2: `handleError` sends every signaling/not-found/request error to
`failed` from any state; every error during codec discovery to `failed`
regardless of kind; and every other error while `running` to `restarting`
with the session cleaned up (queue, URL and offer data cleared) and a
2000 ms (`retryPause`) timer armed whose firing puts the machine back in
`running` and restarts the startup sequence. -/
theorem C2_error_classification :
    (∀ (s : WhepState) (e : Err), isPermanentType e = true →
        (handleError s e).st = WState.failed)
      ∧ (∀ (s : WhepState) (e : Err), s.st = WState.gettingCodecs →
          (handleError s e).st = WState.failed)
      ∧ (∀ (s : WhepState) (e : Err), s.st = WState.running →
          isPermanentType e = false →
          (handleError s e).st = WState.restarting
            ∧ (handleError s e).queuedCandidates = []
            ∧ (handleError s e).sessionUrl = none
            ∧ (handleError s e).offerData = false
            ∧ (handleError s e).restartTimer = some retryPause
            ∧ retryPause = 2000
            ∧ (stepEv (handleError s e) Ev.timerFire).map (fun p => p.1.st)
                = some WState.running) := by
  refine ⟨?_, ?_, ?_⟩
  · intro s e hp
    unfold handleError
    by_cases h1 : s.st = WState.gettingCodecs
    · rw [if_pos h1]
    · rw [if_neg h1, if_pos hp]
  · intro s e hst
    unfold handleError
    rw [if_pos hst]
  · intro s e hst hperm
    have hne : ¬ s.st = WState.gettingCodecs := by rw [hst]; intro h; cases h
    have hstep :
        handleError s e =
          { (cleanupSession s).1 with
              st := WState.restarting
              restartTimer := some retryPause } := by
      unfold handleError
      rw [if_neg hne, if_neg (by simp [hperm]), if_pos hst]
    rw [hstep]
    refine ⟨rfl, rfl, rfl, rfl, rfl, rfl, ?_⟩
    simp [stepEv, cleanupSession]

/-- C2 witness: a plain transport error while `running` with a live session. -/
theorem C2_error_classification_witness :
    (midAnswerState.st = WState.running ∧ isPermanentType Err.plain = false)
      ∧ ((handleError midAnswerState Err.plain).st = WState.restarting
          ∧ (handleError midAnswerState Err.plain).queuedCandidates = []
          ∧ (handleError midAnswerState Err.plain).sessionUrl = none
          ∧ (handleError midAnswerState Err.plain).offerData = false
          ∧ (handleError midAnswerState Err.plain).restartTimer = some retryPause
          ∧ retryPause = 2000
          ∧ (stepEv (handleError midAnswerState Err.plain) Ev.timerFire).map
              (fun p => p.1.st) = some WState.running) :=
  ⟨⟨rfl, rfl⟩, C2_error_classification.2.2 midAnswerState Err.plain rfl rfl⟩

/-- C1 (code divergence): a signaling-class error delivered while the machine
is `closed` moves the state to `failed` — `handleError` tests the error kind
before it tests for `closed`, so `closed` is not terminal as the documentation
and spec require. -/
theorem C1_closed_escapes_to_failed :
    (handleError { initWhep with st := WState.closed }
        (Err.webrtc ErrType.signal)).st = WState.failed
      ∧ WState.failed ≠ WState.closed :=
  ⟨rfl, by decide⟩

/-! ## Payload-type allocator -/

/-- Helper: full characterisation of the scan loop of `reservePayloadType`:
a successful scan starting at `i` returns the string of the least `n ≥ i`
that is outside 64–95 and not yet pooled. -/
theorem reserveLoop_spec (pool : List String) :
    ∀ fuel i pl, reserveLoop pool i fuel = some pl →
      ∃ n, i ≤ n ∧ n < i + fuel ∧ pl = toString n
        ∧ (n ≤ 63 ∨ 96 ≤ n)
        ∧ toString n ∉ pool
        ∧ ∀ m, i ≤ m → m < n →
            ¬((m ≤ 63 ∨ 96 ≤ m) ∧ toString m ∉ pool) := by
  intro fuel
  induction fuel with
  | zero => intro i pl h; simp [reserveLoop] at h
  | succ fuel ih =>
      intro i pl h
      rw [reserveLoop] at h
      by_cases hc :
          ((decide (i ≤ 63) || decide (96 ≤ i))
            && !(pool.contains (toString i))) = true
      · rw [if_pos hc] at h
        injection h with h'
        simp only [Bool.and_eq_true, Bool.or_eq_true, decide_eq_true_eq,
          Bool.not_eq_true'] at hc
        obtain ⟨hvalid, hmemc⟩ := hc
        have hmem : toString i ∉ pool := by simpa using hmemc
        exact ⟨i, le_refl i, by omega, h'.symm, hvalid, hmem,
          fun m hm1 hm2 => absurd hm2 (by omega)⟩
      · rw [if_neg hc] at h
        obtain ⟨n, hn1, hn2, hn3, hn4, hn5, hn6⟩ := ih (i + 1) pl h
        refine ⟨n, by omega, by omega, hn3, hn4, hn5, fun m hm1 hm2 => ?_⟩
        rcases Nat.eq_or_lt_of_le hm1 with hmi | hmi
        · rintro ⟨hv, hp⟩
          subst hmi
          apply hc
          simp only [Bool.and_eq_true, Bool.or_eq_true, decide_eq_true_eq,
            Bool.not_eq_true']
          exact ⟨hv, by simpa using hp⟩
        · exact hn6 m hmi hm2

/-- Helper: one allocation returns the least free valid value, records it, and
never returns a pooled value. -/
theorem reservePayloadType_spec (pool : List String) (pl : String)
    (pool' : List String) (h : reservePayloadType pool = some (pl, pool')) :
    ∃ n, 30 ≤ n ∧ n ≤ 127 ∧ ¬(64 ≤ n ∧ n ≤ 95) ∧ pl = toString n
      ∧ pl ∉ pool ∧ pool' = pool ++ [pl]
      ∧ ∀ m, 30 ≤ m → m < n → (64 ≤ m ∧ m ≤ 95) ∨ toString m ∈ pool := by
  unfold reservePayloadType at h
  cases hloop : reserveLoop pool 30 98 with
  | none => rw [hloop] at h; cases h
  | some pl₀ =>
      rw [hloop] at h
      injection h with h'
      injection h' with hpl hpool
      obtain ⟨n, hn1, hn2, hn3, hn4, hn5, hn6⟩ :=
        reserveLoop_spec pool 98 30 pl₀ hloop
      subst hpl
      refine ⟨n, hn1, by omega, by omega, hn3, hn3 ▸ hn5, hpool.symm,
        fun m hm1 hm2 => ?_⟩
      by_cases hmv : (m ≤ 63 ∨ 96 ≤ m)
      · by_cases hmp : toString m ∈ pool
        · exact Or.inr hmp
        · exact absurd ⟨hmv, hmp⟩ (hn6 m hm1 hm2)
      · exact Or.inl (by omega)

/-- Helper: a successful allocation run yields pairwise-distinct values, all
fresh with respect to the starting pool, which ends extended by exactly the
allocated values in order. -/
theorem allocSeq_spec :
    ∀ (k : Nat) (pool res pool' : List String),
      allocSeq k pool = some (res, pool') →
      res.Nodup ∧ (∀ r ∈ res, r ∉ pool) ∧ pool' = pool ++ res
        ∧ ∀ r ∈ res, ∃ n, 30 ≤ n ∧ n ≤ 127 ∧ ¬(64 ≤ n ∧ n ≤ 95)
            ∧ r = toString n := by
  intro k
  induction k with
  | zero =>
      intro pool res pool' h
      simp only [allocSeq, Option.some.injEq, Prod.mk.injEq] at h
      obtain ⟨h1, h2⟩ := h
      subst h1; subst h2
      simp
  | succ k ih =>
      intro pool res pool' h
      unfold allocSeq at h
      cases hres : reservePayloadType pool with
      | none => rw [hres] at h; simp at h
      | some pr =>
          obtain ⟨pl, pmid⟩ := pr
          rw [hres] at h
          dsimp only at h
          cases hrec : allocSeq k pmid with
          | none => rw [hrec] at h; simp at h
          | some qr =>
              obtain ⟨res₀, pfin⟩ := qr
              rw [hrec] at h
              simp only [Option.some.injEq, Prod.mk.injEq] at h
              obtain ⟨h1, h2⟩ := h
              subst h1; subst h2
              obtain ⟨n, _, _, hn3, hn4, hn5, hn6, _⟩ :=
                reservePayloadType_spec pool pl pmid hres
              obtain ⟨hnd, hfresh, hext, hrange⟩ := ih pmid res₀ pfin hrec
              have hplres : pl ∉ res₀ := by
                intro hin
                have := hfresh pl hin
                rw [hn6] at this
                exact this (List.mem_append_right pool (List.mem_singleton.mpr rfl))
              refine ⟨List.nodup_cons.mpr ⟨hplres, hnd⟩, ?_, ?_, ?_⟩
              · intro r hr
                rcases List.mem_cons.mp hr with hr | hr
                · exact hr ▸ hn5
                · intro hrp
                  exact hfresh r hr (hn6 ▸ List.mem_append_left [pl] hrp)
              · rw [hext, hn6]
                simp
              · intro r hr
                rcases List.mem_cons.mp hr with hr | hr
                · exact ⟨n, by omega, by omega, hn3, hr ▸ hn4⟩
                · exact hrange r hr

/-- C5: within one offer-construction pass every allocated payload type lies in
30–127 and outside 64–95, no two allocated values coincide, and each call
returns the least value, scanning upward from 30, that is neither excluded nor
already pooled, appending it to the pool. -/
theorem C5_allocator_correct :
    (∀ (pool : List String) (pl : String) (pool' : List String),
        reservePayloadType pool = some (pl, pool') →
        ∃ n, 30 ≤ n ∧ n ≤ 127 ∧ ¬(64 ≤ n ∧ n ≤ 95) ∧ pl = toString n
          ∧ pl ∉ pool ∧ pool' = pool ++ [pl]
          ∧ ∀ m, 30 ≤ m → m < n → (64 ≤ m ∧ m ≤ 95) ∨ toString m ∈ pool)
      ∧ (∀ (k : Nat) (pool res pool' : List String),
          allocSeq k pool = some (res, pool') →
          res.Nodup
            ∧ ∀ r ∈ res, ∃ n, 30 ≤ n ∧ n ≤ 127 ∧ ¬(64 ≤ n ∧ n ≤ 95)
                ∧ r = toString n) :=
  ⟨reservePayloadType_spec,
   fun k pool res pool' h =>
     ⟨(allocSeq_spec k pool res pool' h).1, (allocSeq_spec k pool res pool' h).2.2.2⟩⟩

/-- C5 witness: the first allocation against an empty pool yields "30". -/
theorem C5_allocator_correct_witness :
    reservePayloadType [] = some ("30", ["30"])
      ∧ ∃ n, 30 ≤ n ∧ n ≤ 127 ∧ ¬(64 ≤ n ∧ n ≤ 95) ∧ "30" = toString n
          ∧ "30" ∉ ([] : List String) ∧ ["30"] = [] ++ ["30"]
          ∧ ∀ m, 30 ≤ m → m < n → (64 ≤ m ∧ m ≤ 95) ∨ toString m ∈ ([] : List String) :=
  ⟨rfl, C5_allocator_correct.1 [] "30" ["30"] rfl⟩

/-- Helper: if a run of `n` allocations succeeds, so does any shorter run from
the same pool. -/
theorem allocSeq_isSome_mono :
    ∀ (n k : Nat) (pool : List String), k ≤ n →
      (allocSeq n pool).isSome = true → (allocSeq k pool).isSome = true := by
  intro n
  induction n with
  | zero =>
      intro k pool hk h
      rw [Nat.le_zero.mp hk]
      exact h
  | succ n ih =>
      intro k pool hk h
      cases k with
      | zero => simp [allocSeq]
      | succ k =>
          cases hres : reservePayloadType pool with
          | none =>
              exfalso
              unfold allocSeq at h
              rw [hres] at h
              simp at h
          | some pr =>
              obtain ⟨pl, pmid⟩ := pr
              have hn : (allocSeq n pmid).isSome = true := by
                by_cases hsome : (allocSeq n pmid).isSome = true
                · exact hsome
                · exfalso
                  have hnone : allocSeq n pmid = none :=
                    Option.not_isSome_iff_eq_none.mp (by simpa using hsome)
                  unfold allocSeq at h
                  rw [hres] at h
                  dsimp only at h
                  rw [hnone] at h
                  simp at h
              obtain ⟨qr', hq⟩ := Option.isSome_iff_exists.mp
                (ih k pmid (Nat.succ_le_succ_iff.mp hk) hn)
              obtain ⟨a, b⟩ := qr'
              unfold allocSeq
              rw [hres]
              dsimp only
              rw [hq]
              rfl

set_option maxRecDepth 10000 in
/-- C6 counterexample: the valid pool holds only 66 values (34 in 30–63 plus
32 in 96–127), not 98, so a 67th allocation within one offer already throws —
the claim's promise that requests succeed through the 98th and first fail at
the 99th is false. -/
theorem C6_counterexample_67th_allocation_throws :
    allocSeq 67 [] = none := rfl

set_option maxRecDepth 10000 in
/-- C6 (amended): starting from an empty pool, every allocation request up to
the 66th succeeds (the pool 30–63 ∪ 96–127 holds 66 values), and the 67th
request raises the allocation error. -/
theorem C6_amended_pool_exhaustion :
    (allocSeq 66 []).isSome = true
      ∧ allocSeq 67 [] = none
      ∧ ∀ k, k ≤ 66 → (allocSeq k []).isSome = true := by
  have h66 : (allocSeq 66 []).isSome = true := rfl
  exact ⟨h66, rfl, fun k hk => allocSeq_isSome_mono 66 k [] hk h66⟩

set_option maxRecDepth 10000 in
/-- C6 witness: the 40th request (well inside the pool) succeeds. -/
theorem C6_amended_pool_exhaustion_witness :
    (40 ≤ 66) ∧ (allocSeq 40 []).isSome = true :=
  ⟨by decide, C6_amended_pool_exhaustion.2.2 40 (by decide)⟩

/-! ## Candidate-queue invariant -/

/-- Helper: `handleError` preserves the session-queue invariant. -/
theorem sessionInv_handleError {s : WhepState} (e : Err) (hinv : SessionInv s) :
    SessionInv (handleError s e) := by
  obtain ⟨i1, i2, i3, i4⟩ := hinv
  unfold handleError
  by_cases h1 : s.st = WState.gettingCodecs
  · rw [if_pos h1]
    refine ⟨(fun h => nomatch h), (fun h => nomatch h), ?_, (fun h => nomatch h)⟩
    intro ht
    obtain ⟨hq, hu, _, _⟩ := i3 ht
    exact ⟨hq, hu, (fun h => nomatch h), (fun h => nomatch h)⟩
  · rw [if_neg h1]
    by_cases h2 : isPermanentType e = true
    · rw [if_pos h2]
      refine ⟨(fun h => nomatch h), (fun h => nomatch h), ?_, (fun h => nomatch h)⟩
      intro ht
      obtain ⟨hq, hu, _, _⟩ := i3 ht
      exact ⟨hq, hu, (fun h => nomatch h), (fun h => nomatch h)⟩
    · rw [if_neg h2]
      by_cases h3 : s.st = WState.running
      · rw [if_pos h3]
        exact ⟨(fun h => nomatch h), (fun h => nomatch h),
          fun _ => ⟨rfl, rfl, (fun h => nomatch h), (fun h => nomatch h)⟩,
          (fun h => nomatch h)⟩
      · rw [if_neg h3]
        exact ⟨i1, i2, i3, i4⟩

/-- Helper: every enabled event preserves the session-queue invariant. -/
theorem sessionInv_step {s s' : WhepState} {e : Ev} {out : List (List Nat)}
    (h : stepEv s e = some (s', out)) (hinv : SessionInv s) : SessionInv s' := by
  obtain ⟨i1, i2, i3, i4⟩ := hinv
  cases e with
  | codecsDone =>
      simp only [stepEv] at h
      split at h
      case isTrue hc =>
        simp only [Option.some.injEq, Prod.mk.injEq] at h
        obtain ⟨h1, h2⟩ := h
        subst h1
        obtain ⟨hu, hq, ho, ha⟩ := i4 hc
        refine ⟨fun _ _ _ => hq, ?_, ?_, (fun h => nomatch h)⟩
        · intro _ hus
          rw [show ({ s with st := WState.running } : WhepState).sessionUrl
              = s.sessionUrl from rfl, hu] at hus
          cases hus
        · intro ht
          exact absurd hc (i3 ht).2.2.2
      case isFalse => cases h
  | setupDone =>
      simp only [stepEv] at h
      split at h
      case isTrue hc =>
        simp only [Option.some.injEq, Prod.mk.injEq] at h
        obtain ⟨h1, h2⟩ := h
        subst h1
        refine ⟨fun h => i1 h, fun _ _ => rfl, ?_, ?_⟩
        · intro ht
          obtain ⟨hq, hu, hr, hg⟩ := i3 ht
          exact ⟨hq, hu, hr, hg⟩
        · intro hg
          exact absurd (hg ▸ hc : WState.gettingCodecs = WState.running)
            ((fun h => nomatch h))
      case isFalse => cases h
  | offerResp url =>
      simp only [stepEv] at h
      split at h
      case isTrue hc =>
        simp only [Option.some.injEq, Prod.mk.injEq] at h
        obtain ⟨h1, h2⟩ := h
        subst h1
        refine ⟨?_, fun _ _ => hc.2, ?_, ?_⟩
        · intro _ ha
          cases ha
        · intro ht
          exact absurd hc.1 (i3 ht).2.2.1
        · intro hg
          exact absurd (hg ▸ hc.1 : WState.gettingCodecs = WState.running)
            ((fun h => nomatch h))
      case isFalse => cases h
  | answerOk =>
      simp only [stepEv] at h
      split at h
      case isTrue hc =>
        split at h
        case isTrue hflush =>
          simp only [Option.some.injEq, Prod.mk.injEq] at h
          obtain ⟨h1, h2⟩ := h
          subst h1
          refine ⟨fun _ _ _ => rfl, fun _ hus => i2 hc.2 hus, ?_, ?_⟩
          · intro ht
            exact absurd hc.2 (i3 ht).2.2.1
          · intro hg
            exact absurd (hg ▸ hc.2 : WState.gettingCodecs = WState.running)
              ((fun h => nomatch h))
        case isFalse hnoflush =>
          simp only [Option.some.injEq, Prod.mk.injEq] at h
          obtain ⟨h1, h2⟩ := h
          subst h1
          refine ⟨?_, fun _ hus => i2 hc.2 hus, ?_, ?_⟩
          · intro _ _ hus
            have ho : s.offerData = true := i2 hc.2 hus
            by_cases hq : s.queuedCandidates = []
            · exact hq
            · exact absurd ⟨hq, ho, hus⟩ hnoflush
          · intro ht
            exact absurd hc.2 (i3 ht).2.2.1
          · intro hg
            exact absurd (hg ▸ hc.2 : WState.gettingCodecs = WState.running)
              ((fun h => nomatch h))
      case isFalse => cases h
  | answerSkip =>
      simp only [stepEv] at h
      split at h
      case isTrue hc =>
        simp only [Option.some.injEq, Prod.mk.injEq] at h
        obtain ⟨h1, h2⟩ := h
        subst h1
        refine ⟨?_, ?_, ?_, ?_⟩
        · intro hr
          exact absurd hr hc.2
        · intro hr
          exact absurd hr hc.2
        · intro ht
          obtain ⟨hq, hu, hr, hg⟩ := i3 ht
          exact ⟨hq, hu, hr, hg⟩
        · intro hg
          exact absurd hc.1 (by rw [(i4 hg).2.2.2]; intro h; cases h)
      case isFalse => cases h
  | cand c =>
      simp only [stepEv] at h
      split at h
      case isTrue hc =>
        split at h
        case h_1 u hu =>
          split at h <;>
            · simp only [Option.some.injEq, Prod.mk.injEq] at h
              obtain ⟨h1, h2⟩ := h
              subst h1
              exact ⟨i1, i2, i3, i4⟩
        case h_2 hu =>
          simp only [Option.some.injEq, Prod.mk.injEq] at h
          obtain ⟨h1, h2⟩ := h
          subst h1
          refine ⟨?_, ?_, ?_, ?_⟩
          · intro _ _ hus
            rw [show ({ s with queuedCandidates := s.queuedCandidates ++ [c] }
                : WhepState).sessionUrl = s.sessionUrl from rfl, hu] at hus
            cases hus
          · intro hr hus
            rw [show ({ s with queuedCandidates := s.queuedCandidates ++ [c] }
                : WhepState).sessionUrl = s.sessionUrl from rfl, hu] at hus
            cases hus
          · intro ht
            exact absurd hc (i3 ht).2.2.1
          · intro hg
            exact absurd (hg ▸ hc : WState.gettingCodecs = WState.running)
              ((fun h => nomatch h))
      case isFalse => cases h
  | err e' =>
      simp only [stepEv, Option.some.injEq, Prod.mk.injEq] at h
      obtain ⟨h1, h2⟩ := h
      subst h1
      exact sessionInv_handleError e' ⟨i1, i2, i3, i4⟩
  | timerFire =>
      simp only [stepEv] at h
      split at h
      case isTrue hc =>
        simp only [Option.some.injEq, Prod.mk.injEq] at h
        obtain ⟨h1, h2⟩ := h
        subst h1
        obtain ⟨hq, hu, _, _⟩ := i3 (by simpa using hc)
        refine ⟨fun _ _ _ => hq, ?_, (fun h => nomatch h), (fun h => nomatch h)⟩
        intro _ hus
        rw [show ({ s with restartTimer := none, st := WState.running }
            : WhepState).sessionUrl = s.sessionUrl from rfl, hu] at hus
        cases hus
      case isFalse => cases h
  | closeEv =>
      simp only [stepEv, Option.some.injEq, Prod.mk.injEq] at h
      obtain ⟨h1, h2⟩ := h
      subst h1
      exact ⟨(fun h => nomatch h), (fun h => nomatch h), (fun h => nomatch h),
        (fun h => nomatch h)⟩

/-- Helper: the invariant holds in the construction state. -/
theorem sessionInv_init : SessionInv initWhep :=
  ⟨fun _ _ _ => rfl, (fun h => nomatch h), (fun h => nomatch h),
   fun _ => ⟨rfl, rfl, rfl, rfl⟩⟩

/-- Helper: the invariant holds at every reachable state. -/
theorem sessionInv_reach {s : WhepState} (h : Reach s) : SessionInv s := by
  induction h with
  | init => exact sessionInv_init
  | step _ hstep ih => exact sessionInv_step hstep ih

/-- Helper: states produced by `runTrace` from the construction state are
reachable. -/
theorem reach_of_runTrace :
    ∀ (evs : List Ev) (s s' : WhepState), Reach s → runTrace s evs = some s' →
      Reach s' := by
  intro evs
  induction evs with
  | nil =>
      intro s s' hr h
      simp only [runTrace, Option.some.injEq] at h
      exact h ▸ hr
  | cons e es ih =>
      intro s s' hr h
      unfold runTrace at h
      cases hstep : stepEv s e with
      | none => rw [hstep] at h; cases h
      | some pr =>
          obtain ⟨smid, out⟩ := pr
          rw [hstep] at h
          exact ih smid s' (Reach.step hr hstep) h

/-- C4 counterexample: after the trace codec-detection → transport setup →
candidate 7 discovered → offer response with URL 1, the machine is in a
reachable state whose session URL is set while candidate 7 is still queued
(`setAnswer` has not yet resolved), so the claimed invariant "the queue is
non-empty only while the session URL is unset" fails. -/
theorem C4_counterexample_queued_with_url_set :
    runTrace initWhep [Ev.codecsDone, Ev.setupDone, Ev.cand 7, Ev.offerResp 1]
        = some midAnswerState
      ∧ Reach midAnswerState
      ∧ midAnswerState.sessionUrl.isSome = true
      ∧ midAnswerState.queuedCandidates ≠ [] := by
  have htrace : runTrace initWhep
      [Ev.codecsDone, Ev.setupDone, Ev.cand 7, Ev.offerResp 1]
        = some midAnswerState := by rfl
  exact ⟨htrace, reach_of_runTrace _ _ _ Reach.init htrace, rfl, by decide⟩

/-- C4 (amended): while `running` with no answer application in flight, a set
session URL forces an empty candidate queue at every reachable state (between
the arrival of the offer response and the resolution of `setAnswer` the URL is
already set while the queue may still be non-empty); when `setAnswer` resolves
in `running` with a non-empty queue, stored offer data and a known URL, the
whole queue is sent as one batch and emptied; and a candidate discovered while
the URL is set is never queued and is forwarded individually when offer data
is present. -/
theorem C4_amended_queue_invariant :
    (∀ s : WhepState, Reach s → s.st = WState.running →
        s.awaitingAnswer = false → s.sessionUrl.isSome →
        s.queuedCandidates = [])
      ∧ (∀ (s s' : WhepState) (out : List (List Nat)),
          stepEv s Ev.answerOk = some (s', out) →
          s.queuedCandidates ≠ [] → s.offerData = true → s.sessionUrl.isSome →
          s'.queuedCandidates = [] ∧ out = [s.queuedCandidates])
      ∧ (∀ (s s' : WhepState) (out : List (List Nat)) (c u : Nat),
          stepEv s (Ev.cand c) = some (s', out) → s.sessionUrl = some u →
          s'.queuedCandidates = s.queuedCandidates
            ∧ (s.offerData = true → out = [[c]])) := by
  refine ⟨?_, ?_, ?_⟩
  · intro s hr hrun hnotawait hus
    exact (sessionInv_reach hr).1 hrun hnotawait hus
  · intro s s' out h hq ho hus
    simp only [stepEv] at h
    split at h
    case isTrue hc =>
      rw [if_pos ⟨hq, ho, hus⟩] at h
      simp only [Option.some.injEq, Prod.mk.injEq] at h
      obtain ⟨h1, h2⟩ := h
      subst h1
      exact ⟨rfl, h2.symm⟩
    case isFalse => cases h
  · intro s s' out c u h hu
    simp only [stepEv] at h
    split at h
    case isTrue hc =>
      rw [hu] at h
      dsimp only at h
      by_cases ho : s.offerData = true
      · rw [if_pos ho] at h
        simp only [Option.some.injEq, Prod.mk.injEq] at h
        obtain ⟨h1, h2⟩ := h
        subst h1
        exact ⟨rfl, fun _ => h2.symm⟩
      · rw [if_neg ho] at h
        simp only [Option.some.injEq, Prod.mk.injEq] at h
        obtain ⟨h1, h2⟩ := h
        subst h1
        exact ⟨rfl, fun hcon => absurd hcon ho⟩
    case isFalse => cases h

/-- C4 witness: the invariant applied to the state reached right after codec
detection, and the batch flush applied at `midAnswerState`. -/
theorem C4_amended_queue_invariant_witness :
    (Reach flushedState ∧ flushedState.queuedCandidates = [])
    ∧ (stepEv midAnswerState Ev.answerOk = some (flushedState, [[7]])
        ∧ midAnswerState.queuedCandidates ≠ []
        ∧ [[7]] = [midAnswerState.queuedCandidates]) := by
  have hmid : Reach midAnswerState :=
    reach_of_runTrace [Ev.codecsDone, Ev.setupDone, Ev.cand 7, Ev.offerResp 1]
      initWhep midAnswerState Reach.init (by rfl)
  have hr : Reach flushedState :=
    Reach.step hmid
      (show stepEv midAnswerState Ev.answerOk = some (flushedState, [[7]]) from rfl)
  have happ := C4_amended_queue_invariant.1 flushedState hr rfl rfl rfl
  have hflush :=
    C4_amended_queue_invariant.2.1 midAnswerState flushedState
      [[7]] rfl (by decide) rfl rfl
  exact ⟨⟨hr, happ⟩, ⟨rfl, by decide, by rw [hflush.2]⟩⟩

/-! ## Trickle-fragment generation -/

/-- C3 (code divergence): for a parsed offer with three media sections and
candidates at media indices exactly 0 and 2, the generated fragment holds the
shared ice-ufrag/ice-pwd lines but only ONE `m=` block (index 2): the grouping
guard `if (mid)` is falsy for the index 0, so every candidate of the first
media section is dropped instead of producing its block. -/
theorem C3_fragment_drops_index_zero :
    generateSdpFragment fragOffer fragCands
        = ["a=ice-ufrag:abcd".data, "a=ice-pwd:efgh".data,
           "m=app 9 SCTP".data, "a=mid:2".data, "a=cand2".data]
      ∧ countMediaLines (generateSdpFragment fragOffer fragCands) = 1
      ∧ (1 : Nat) ≠ 2 :=
  ⟨rfl, rfl, by decide⟩

/-! ## Stereo Opus injection: list/string lemmas -/

/-- Helper: `isPrefixOf` agrees with the prefix relation. -/
theorem isPrefixOf_true_iff {α : Type} [DecidableEq α] :
    ∀ (l₁ l₂ : List α), l₁.isPrefixOf l₂ = true ↔ l₁ <+: l₂ := by
  intro l₁
  induction l₁ with
  | nil => intro l₂; simp [List.isPrefixOf]
  | cons a as ih =>
      intro l₂
      cases l₂ with
      | nil =>
          simp only [List.isPrefixOf]
          constructor
          · intro h; cases h
          · intro h
            obtain ⟨t, ht⟩ := h
            cases ht
      | cons b bs =>
          simp only [List.isPrefixOf, Bool.and_eq_true, beq_iff_eq,
            List.cons_prefix_cons]
          exact and_congr Iff.rfl (ih bs)

/-- Helper: a prefix is an occurrence. -/
theorem infix_of_prefixRel {α : Type} {l₁ l₂ : List α} (h : l₁ <+: l₂) :
    l₁ <:+: l₂ := by
  obtain ⟨t, ht⟩ := h
  exact ⟨[], t, by simpa using ht⟩

/-- Helper: occurrences survive extending the list on the right. -/
theorem infix_append_of_left {α : Type} {s a : List α} (b : List α)
    (h : s <:+: a) : s <:+: a ++ b := by
  obtain ⟨p, q, hpq⟩ := h
  exact ⟨p, q ++ b, by rw [← hpq]; simp⟩

/-- Helper: occurrences survive extending the list on the left. -/
theorem infix_append_of_right {α : Type} {s b : List α} (a : List α)
    (h : s <:+: b) : s <:+: a ++ b := by
  obtain ⟨p, q, hpq⟩ := h
  exact ⟨a ++ p, q, by rw [← hpq]; simp⟩

/-- Helper: splitting a list around an explicit separator occurrence splits
the two sides independently. -/
theorem splitOnP_append_sep {α : Type} (p : α → Bool) (x : α) (hx : p x = true) :
    ∀ (l s : List α), (l ++ x :: s).splitOnP p = l.splitOnP p ++ s.splitOnP p := by
  intro l
  induction l with
  | nil =>
      intro s
      simp [List.splitOnP_cons, hx, List.splitOnP_nil]
  | cons a l ih =>
      intro s
      cases ha : p a with
      | true =>
          simp only [List.cons_append, List.splitOnP_cons, ha, if_true,
            ih s, List.cons_append]
      | false =>
          simp only [List.cons_append, List.splitOnP_cons, ha,
            Bool.false_eq_true, if_false, ih s]
          obtain ⟨h, t, hht⟩ := List.exists_cons_of_ne_nil (List.splitOnP_ne_nil p l)
          rw [hht]
          rfl

/-- Helper: the pieces of `splitOnP` are occurrences in the original list,
contain no separator, and the first piece is a prefix. -/
theorem splitOnP_shape {α : Type} (p : α → Bool) :
    ∀ l : List α, ∃ h t, l.splitOnP p = h :: t ∧ h <+: l
      ∧ (∀ c ∈ h, p c = false)
      ∧ ∀ f ∈ t, f <:+: l ∧ ∀ c ∈ f, p c = false := by
  intro l
  induction l with
  | nil =>
      exact ⟨[], [], List.splitOnP_nil p, List.nil_prefix,
        fun c hc => absurd hc (List.not_mem_nil c), fun f hf => absurd hf (List.not_mem_nil f)⟩
  | cons a l ih =>
      obtain ⟨h, t, hht, hprefRel, hnosep, hrest⟩ := ih
      cases ha : p a with
      | true =>
          refine ⟨[], l.splitOnP p, by rw [List.splitOnP_cons, ha]; rfl,
            List.nil_prefix, fun c hc => absurd hc (List.not_mem_nil c), ?_⟩
          intro f hf
          rw [hht] at hf
          rcases List.mem_cons.mp hf with hf | hf
          · subst hf
            exact ⟨infix_append_of_right [a] (infix_of_prefixRel hprefRel), hnosep⟩
          · obtain ⟨hinf, hns⟩ := hrest f hf
            exact ⟨infix_append_of_right [a] hinf, hns⟩
      | false =>
          refine ⟨a :: h, t, ?_, ?_, ?_, ?_⟩
          · rw [List.splitOnP_cons, ha]
            simp only [Bool.false_eq_true, if_false, hht]
            rfl
          · exact List.cons_prefix_cons.mpr ⟨rfl, hprefRel⟩
          · intro c hc
            rcases List.mem_cons.mp hc with hc | hc
            · exact hc ▸ ha
            · exact hnosep c hc
          · intro f hf
            obtain ⟨hinf, hns⟩ := hrest f hf
            exact ⟨infix_append_of_right [a] hinf, hns⟩

/-- Helper: the pieces of `splitOnP` occur in the original list and contain no
separator. -/
theorem splitOnP_piece {α : Type} (p : α → Bool) (l f : List α)
    (hf : f ∈ l.splitOnP p) : f <:+: l ∧ ∀ c ∈ f, p c = false := by
  obtain ⟨h, t, hht, hprefRel, hnosep, hrest⟩ := splitOnP_shape p l
  rw [hht] at hf
  rcases List.mem_cons.mp hf with hf | hf
  · exact hf ▸ ⟨infix_of_prefixRel hprefRel, hnosep⟩
  · exact hrest f hf

/-- Helper: an occurrence in an appended list lies in the left part, lies in
the right part, or straddles the boundary. -/
theorem infix_append_decomp {α : Type} {S a b : List α} (h : S <:+: a ++ b) :
    S <:+: a ∨ S <:+: b
      ∨ ∃ s1 s2, S = s1 ++ s2 ∧ s1 ≠ [] ∧ s2 ≠ [] ∧ s1 <:+ a ∧ s2 <+: b := by
  obtain ⟨p, q, hpq⟩ := h
  have ha : a = (p ++ (S ++ q)).take a.length := by
    rw [show p ++ (S ++ q) = a ++ b by simpa using hpq, List.take_left]
  have hb : b = (p ++ (S ++ q)).drop a.length := by
    rw [show p ++ (S ++ q) = a ++ b by simpa using hpq, List.drop_left]
  by_cases h1 : p.length + S.length ≤ a.length
  · left
    rw [List.take_append_eq_append_take,
      List.take_of_length_le (by omega), List.take_append_eq_append_take,
      List.take_of_length_le (by omega)] at ha
    exact ⟨p, q.take (a.length - p.length - S.length), by rw [ha]; simp⟩
  · by_cases h2 : a.length ≤ p.length
    · right; left
      rw [List.drop_append_eq_append_drop,
        show a.length - p.length = 0 by omega, List.drop_zero] at hb
      exact ⟨p.drop a.length, q, by rw [hb, List.append_assoc]⟩
    · right; right
      have hm1 : 0 < a.length - p.length := by omega
      have hm2 : a.length - p.length < S.length := by omega
      refine ⟨S.take (a.length - p.length), S.drop (a.length - p.length),
        (List.take_append_drop _ S).symm, ?_, ?_, ?_, ?_⟩
      · intro hnil
        have := congrArg List.length hnil
        simp only [List.length_take, List.length_nil] at this
        omega
      · intro hnil
        have := congrArg List.length hnil
        simp only [List.length_drop, List.length_nil] at this
        omega
      · rw [List.take_append_eq_append_take,
          List.take_of_length_le (by omega), List.take_append_eq_append_take,
          show a.length - p.length - S.length = 0 by omega,
          List.take_zero, List.append_nil] at ha
        exact ⟨p, ha.symm⟩
      · rw [List.drop_append_eq_append_drop,
          List.drop_eq_nil_of_le (by omega), List.drop_append_eq_append_drop,
          show a.length - p.length - S.length = 0 by omega,
          List.drop_zero, List.nil_append] at hb
        exact ⟨q, hb.symm⟩

/-- Helper: appending `;stereo=1` to a line that does not mention `stereo`
cannot create an occurrence of `sprop-stereo` (the marker contains no
semicolon, while anything crossing the boundary must contain one). -/
theorem sprop_not_created (l : List Char) (hs : ¬("stereo".data <:+: l)) :
    ¬("sprop-stereo".data <:+: l ++ ";stereo=1".data) := by
  intro hcon
  rcases infix_append_decomp hcon with hc | hc | ⟨s1, s2, hS, hs1ne, hs2ne, hs1, hs2⟩
  · exact hs (List.IsInfix.trans (by decide) hc)
  · exact absurd hc (by decide)
  · have hform : ";stereo=1".data = ';' :: "stereo=1".data := rfl
    rw [hform] at hs2
    cases s2 with
    | nil => exact hs2ne rfl
    | cons c s2' =>
        obtain ⟨hc1, _⟩ := List.cons_prefix_cons.mp hs2
        have hmem : (';' : Char) ∈ "sprop-stereo".data := by
          rw [hS]
          exact List.mem_append_right s1 (hc1 ▸ List.mem_cons_self c s2')
        exact absurd hmem (by decide)

/-- Helper: on a matching fmtp line with no stereo parameters, `stereoStep`
appends both markers. -/
theorem stereoStep_of_missing (pf l : List Char)
    (hpre : ("a=fmtp:".data ++ pf ++ [' ']).isPrefixOf l = true)
    (hs : ¬("stereo".data <:+: l)) :
    stereoStep pf l = l ++ ";stereo=1".data ++ ";sprop-stereo=1".data := by
  unfold stereoStep
  rw [if_pos hpre]
  have hc1 : containsSub "stereo".data l = false := decide_eq_false hs
  have hc2 : containsSub "sprop-stereo".data (l ++ ";stereo=1".data) = false :=
    decide_eq_false (sprop_not_created l hs)
  simp only [hc1, Bool.false_eq_true, if_false, hc2]

/-- Helper: after injection, the fmtp line carries each stereo marker exactly
once among its semicolon-separated parameters. -/
theorem stereoStep_count (pf l : List Char)
    (hpre : ("a=fmtp:".data ++ pf ++ [' ']).isPrefixOf l = true)
    (hs : ¬("stereo".data <:+: l)) :
    ((stereoStep pf l).splitOn ';').count "stereo=1".data = 1
      ∧ ((stereoStep pf l).splitOn ';').count "sprop-stereo=1".data = 1 := by
  rw [stereoStep_of_missing pf l hpre hs]
  have hform : l ++ ";stereo=1".data ++ ";sprop-stereo=1".data
      = l ++ ';' :: ("stereo=1".data ++ ';' :: "sprop-stereo=1".data) := by
    rw [List.append_assoc]
    rfl
  rw [hform]
  have hsplit : (l ++ ';' :: ("stereo=1".data ++ ';' :: "sprop-stereo=1".data)).splitOn ';'
      = l.splitOn ';' ++ ["stereo=1".data, "sprop-stereo=1".data] := by
    show (l ++ ';' :: ("stereo=1".data ++ ';' :: "sprop-stereo=1".data)).splitOnP
        (· == ';') = l.splitOnP (· == ';') ++ ["stereo=1".data, "sprop-stereo=1".data]
    rw [splitOnP_append_sep _ ';' (by decide),
      splitOnP_append_sep _ ';' (by decide),
      List.splitOnP_eq_single (fun x => x == ';') "stereo=1".data (by decide),
      List.splitOnP_eq_single (fun x => x == ';') "sprop-stereo=1".data (by decide)]
    rfl
  rw [hsplit, List.count_append, List.count_append]
  have hzst : (l.splitOn ';').count "stereo=1".data = 0 := by
    rw [List.count_eq_zero]
    intro hmem
    exact hs (List.IsInfix.trans (by decide)
      (splitOnP_piece (· == ';') l _ hmem).1)
  have hzsp : (l.splitOn ';').count "sprop-stereo=1".data = 0 := by
    rw [List.count_eq_zero]
    intro hmem
    exact hs (List.IsInfix.trans (by decide)
      (splitOnP_piece (· == ';') l _ hmem).1)
  rw [hzst, hzsp]
  exact ⟨by decide, by decide⟩

/-- Helper: a line carrying the `a=fmtp:` header cannot also carry the
`a=rtpmap:` header (the two disagree at index 2). -/
theorem rtpmap_isPrefixOf_false (pf l : List Char)
    (h : ("a=fmtp:".data ++ pf ++ [' ']).isPrefixOf l = true) :
    "a=rtpmap:".data.isPrefixOf l = false := by
  cases hb : "a=rtpmap:".data.isPrefixOf l with
  | false => rfl
  | true =>
      exfalso
      obtain ⟨t1, ht1⟩ := (isPrefixOf_true_iff _ l).mp h
      obtain ⟨t2, ht2⟩ := (isPrefixOf_true_iff _ l).mp hb
      have hA : ("a=fmtp:".data).length = 7 := rfl
      have hlen1 : ("a=fmtp:".data ++ pf).length = 7 + pf.length := by
        rw [List.length_append, hA]
      have hlen2 : ("a=fmtp:".data ++ pf ++ [' ']).length = 7 + pf.length + 1 := by
        rw [List.length_append, hlen1]
        rfl
      have e1 : l[2]? = some 'f' := by
        rw [← ht1, List.getElem?_append_left (by omega),
          List.getElem?_append_left (by omega),
          List.getElem?_append_left (by omega)]
        rfl
      have e2 : l[2]? = some 'r' := by
        rw [← ht2, List.getElem?_append_left
          (by have h9 : ("a=rtpmap:".data).length = 9 := rfl; omega)]
        rfl
      rw [e1] at e2
      exact absurd (Option.some.inj e2) (by decide)

/-- Helper: `stereoStep` only ever appends to its line. -/
theorem stereoStep_extends (pf l : List Char) :
    ∃ e, stereoStep pf l = l ++ e := by
  unfold stereoStep
  by_cases h1 : ("a=fmtp:".data ++ pf ++ [' ']).isPrefixOf l = true
  · rw [if_pos h1]
    by_cases h2 : containsSub "stereo".data l = true
    · rw [h2]
      simp only [if_true]
      by_cases h3 : containsSub "sprop-stereo".data l = true
      · rw [h3]
        exact ⟨[], by simp⟩
      · rw [Bool.not_eq_true] at h3
        rw [h3]
        simp only [Bool.false_eq_true, if_false]
        exact ⟨";sprop-stereo=1".data, rfl⟩
    · rw [Bool.not_eq_true] at h2
      rw [h2]
      simp only [Bool.false_eq_true, if_false]
      by_cases h3 : containsSub "sprop-stereo".data (l ++ ";stereo=1".data) = true
      · rw [h3]
        simp only [if_true]
        exact ⟨";stereo=1".data, rfl⟩
      · rw [Bool.not_eq_true] at h3
        rw [h3]
        simp only [Bool.false_eq_true, if_false]
        exact ⟨";stereo=1".data ++ ";sprop-stereo=1".data, by rw [List.append_assoc]⟩
  · rw [if_neg h1]
    exact ⟨[], by simp⟩

/-- Helper: an Opus rtpmap line is left untouched by `stereoStep` (it does not
carry the fmtp header). -/
theorem stereoStep_fixes_rtpmap (pf l : List Char)
    (h : opusRtpmapLine l = true) : stereoStep pf l = l := by
  unfold stereoStep
  have hr : "a=rtpmap:".data.isPrefixOf l = true := by
    unfold opusRtpmapLine at h
    exact (Bool.and_eq_true _ _).mp h |>.1
  rw [if_neg ?_]
  intro hcon
  rw [rtpmap_isPrefixOf_false pf l hcon] at hr
  cases hr

/-- Helper: a line that is not an Opus rtpmap line stays one after
`stereoStep`. -/
theorem stereoStep_keeps_not_rtpmap (pf l : List Char)
    (h : opusRtpmapLine l = false) : opusRtpmapLine (stereoStep pf l) = false := by
  by_cases h1 : ("a=fmtp:".data ++ pf ++ [' ']).isPrefixOf l = true
  · obtain ⟨e, he⟩ := stereoStep_extends pf l
    rw [he]
    have h1' : ("a=fmtp:".data ++ pf ++ [' ']).isPrefixOf (l ++ e) = true := by
      rw [isPrefixOf_true_iff]
      exact ((isPrefixOf_true_iff _ l).mp h1).trans (List.prefix_append l e)
    unfold opusRtpmapLine
    rw [rtpmap_isPrefixOf_false pf (l ++ e) h1']
    rfl
  · unfold stereoStep
    rw [if_neg h1]
    exact h

/-- Helper: mapping `stereoStep` over the lines does not change which line the
Opus rtpmap search finds. -/
theorem find_opus_map (pf : List Char) :
    ∀ lines : List (List Char),
      (lines.map (stereoStep pf)).find? opusRtpmapLine
        = lines.find? opusRtpmapLine := by
  intro lines
  induction lines with
  | nil => rfl
  | cons l ls ih =>
      cases hl : opusRtpmapLine l with
      | true =>
          rw [List.map_cons, List.find?_cons_of_pos _ (by rw [stereoStep_fixes_rtpmap pf l hl]; exact hl),
            List.find?_cons_of_pos _ hl, stereoStep_fixes_rtpmap pf l hl]
      | false =>
          rw [List.map_cons,
            List.find?_cons_of_neg _ (by rw [stereoStep_keeps_not_rtpmap pf l hl]; simp),
            List.find?_cons_of_neg _ (by rw [hl]; simp), ih]

/-- Helper: `stereoStep` is idempotent on every line. -/
theorem stereoStep_idem (pf l : List Char) :
    stereoStep pf (stereoStep pf l) = stereoStep pf l := by
  have hdone : ∀ m, ("a=fmtp:".data ++ pf ++ [' ']).isPrefixOf m = true →
      containsSub "stereo".data m = true →
      containsSub "sprop-stereo".data m = true →
      stereoStep pf m = m := by
    intro m hm h2 h3
    unfold stereoStep
    rw [if_pos hm]
    simp only [h2, if_true, h3]
  by_cases h1 : ("a=fmtp:".data ++ pf ++ [' ']).isPrefixOf l = true
  · have hpre : ∀ e : List Char,
        ("a=fmtp:".data ++ pf ++ [' ']).isPrefixOf (l ++ e) = true := by
      intro e
      rw [isPrefixOf_true_iff]
      exact ((isPrefixOf_true_iff _ l).mp h1).trans (List.prefix_append l e)
    cases h2 : containsSub "stereo".data l with
    | true =>
        cases h3 : containsSub "sprop-stereo".data l with
        | true =>
            have hr : stereoStep pf l = l := hdone l h1 h2 h3
            rw [hr]
            exact hr
        | false =>
            have hr : stereoStep pf l = l ++ ";sprop-stereo=1".data := by
              unfold stereoStep
              rw [if_pos h1]
              simp only [h2, if_true, h3, Bool.false_eq_true, if_false]
            rw [hr]
            refine hdone _ (hpre _) ?_ ?_
            · exact decide_eq_true
                (infix_append_of_left _ (of_decide_eq_true h2))
            · exact decide_eq_true (infix_append_of_right l (by decide))
    | false =>
        cases h3 : containsSub "sprop-stereo".data (l ++ ";stereo=1".data) with
        | true =>
            have hr : stereoStep pf l = l ++ ";stereo=1".data := by
              unfold stereoStep
              rw [if_pos h1]
              simp only [h2, Bool.false_eq_true, if_false, h3, if_true]
            rw [hr]
            refine hdone _ (hpre _) ?_ h3
            exact decide_eq_true (infix_append_of_right l (by decide))
        | false =>
            have hr : stereoStep pf l
                = l ++ ";stereo=1".data ++ ";sprop-stereo=1".data := by
              unfold stereoStep
              rw [if_pos h1]
              simp only [h2, Bool.false_eq_true, if_false, h3]
            rw [hr]
            refine hdone _ ?_ ?_ ?_
            · rw [List.append_assoc l]
              exact hpre _
            · exact decide_eq_true
                (infix_append_of_left _ (infix_append_of_right l (by decide)))
            · exact decide_eq_true (infix_append_of_right _ (by decide))
  · have hr : stereoStep pf l = l := by
      unfold stereoStep
      rw [if_neg h1]
    rw [hr]
    exact hr

/-- Helper: with an Opus rtpmap line found and a non-empty payload format,
`enableStereoOpus` maps `stereoStep` over the section's lines. -/
theorem enableStereoOpus_eq_map (lines : List (List Char)) (l0 : List Char)
    (hf : lines.find? opusRtpmapLine = some l0)
    (hpf : extractPayloadFormat l0 ≠ []) :
    enableStereoOpus lines = lines.map (stereoStep (extractPayloadFormat l0)) := by
  unfold enableStereoOpus
  rw [hf]
  dsimp only
  rw [if_neg hpf]

/-- Helper: with no Opus rtpmap line, the section is returned unchanged. -/
theorem enableStereoOpus_of_none (lines : List (List Char))
    (hf : lines.find? opusRtpmapLine = none) : enableStereoOpus lines = lines := by
  unfold enableStereoOpus
  rw [hf]
  simp

/-- Helper: stereo injection is idempotent on sections with an advertised
Opus codec. -/
theorem enableStereoOpus_idem (lines : List (List Char)) (l0 : List Char)
    (hf : lines.find? opusRtpmapLine = some l0)
    (hpf : extractPayloadFormat l0 ≠ []) :
    enableStereoOpus (enableStereoOpus lines) = enableStereoOpus lines := by
  have hmap := enableStereoOpus_eq_map lines l0 hf hpf
  rw [hmap]
  have hf2 : (lines.map (stereoStep (extractPayloadFormat l0))).find?
      opusRtpmapLine = some l0 := by
    rw [find_opus_map]
    exact hf
  rw [enableStereoOpus_eq_map _ l0 hf2 hpf, List.map_map]
  exact List.map_congr_left
    (fun l _ => by simp only [Function.comp_apply, stereoStep_idem])

/-- C7: for a section whose Opus rtpmap line is found with payload format pf,
stereo injection rewrites exactly the `a=fmtp:pf ` lines; an fmtp line that
lacked stereo parameters afterwards carries `stereo=1` and `sprop-stereo=1`
exactly once each among its semicolon-separated parameters; the injection is
idempotent; and a section with no matching rtpmap line is returned unchanged
with no error. -/
theorem C7_stereo_injection :
    (∀ (lines : List (List Char)) (l0 : List Char),
        lines.find? opusRtpmapLine = some l0 →
        extractPayloadFormat l0 ≠ [] →
        (enableStereoOpus lines
            = lines.map (stereoStep (extractPayloadFormat l0))
          ∧ (∀ l ∈ lines,
              ("a=fmtp:".data ++ extractPayloadFormat l0 ++ [' ']).isPrefixOf l
                  = true →
              ¬("stereo".data <:+: l) →
              ((stereoStep (extractPayloadFormat l0) l).splitOn ';').count
                  "stereo=1".data = 1
                ∧ ((stereoStep (extractPayloadFormat l0) l).splitOn ';').count
                    "sprop-stereo=1".data = 1)
          ∧ enableStereoOpus (enableStereoOpus lines) = enableStereoOpus lines))
      ∧ (∀ lines : List (List Char),
          lines.find? opusRtpmapLine = none → enableStereoOpus lines = lines) := by
  refine ⟨?_, ?_⟩
  · intro lines l0 hf hpf
    exact ⟨enableStereoOpus_eq_map lines l0 hf hpf,
      fun l _ hpre hs => stereoStep_count _ l hpre hs,
      enableStereoOpus_idem lines l0 hf hpf⟩
  · intro lines hf
    exact enableStereoOpus_of_none lines hf

/-- C7 witness: a concrete audio section advertising Opus as payload type 111
with an fmtp line lacking stereo parameters. -/
theorem C7_stereo_injection_witness :
    (testAudioLines.find? opusRtpmapLine = some "a=rtpmap:111 opus/48000/2".data
      ∧ extractPayloadFormat "a=rtpmap:111 opus/48000/2".data ≠ [])
    ∧ enableStereoOpus (enableStereoOpus testAudioLines)
        = enableStereoOpus testAudioLines
    ∧ ((stereoStep (extractPayloadFormat "a=rtpmap:111 opus/48000/2".data)
          "a=fmtp:111 minptime=10".data).splitOn ';').count "stereo=1".data = 1
    ∧ ((stereoStep (extractPayloadFormat "a=rtpmap:111 opus/48000/2".data)
          "a=fmtp:111 minptime=10".data).splitOn ';').count
        "sprop-stereo=1".data = 1 := by
  have happ := C7_stereo_injection.1 testAudioLines
    "a=rtpmap:111 opus/48000/2".data rfl (by decide)
  have hcnt := happ.2.1 "a=fmtp:111 minptime=10".data (by decide)
    (by decide) (by decide)
  exact ⟨⟨rfl, by decide⟩, happ.2.2, hcnt.1, hcnt.2⟩

end Whep
